import Mathlib

/-!
Verification of the AgentBus core (`agentbus.py`): a file-system-backed
broadcast message bus with per-reader last-seen cursors.

The Python source is shallowly embedded as follows.

* A message file on disk is either JSON-unparsable text, or a parsed
  record (a JSON object).  Per the interface description the three
  relevant fields `author`, `timestamp`, `content` are strings; a field
  may be absent (`Option`).  States whose records carry non-string field
  values or whose files parse to non-objects are outside the model.
* The store directory is a list of `(filename, content)` pairs in the
  (arbitrary) order `os.listdir` happens to return; the registry file
  `last_seen.json` is either unparsable (treated as the empty mapping by
  `load_last_seen`) or a mapping, modelled as an association list with
  Python-dict update semantics (replace in place, else append).
* Timestamps: the source writes `datetime.now(timezone.utc).isoformat
  (timespec="microseconds")`, a fixed-width, zero-padded string whose
  lexicographic order coincides with chronological order, and parses with
  `datetime.fromisoformat`.  We model a point in time as a `Nat`
  (microseconds, UTC) and the canonical textual form as the fixed-width
  zero-padded decimal encoding `isoOfNat` of width `TSW`; `parse_iso`
  accepts exactly the canonical strings.  This preserves the two
  properties the code relies on: canonical encodings sort
  lexicographically like their time values, and non-canonical text fails
  to parse.
* Python exceptions (`ValueError` from validation, `KeyError` from a
  missing dict key) are modelled with `Except`; list comprehensions that
  may raise become an explicit traversal.  `Python`'s `list.sort(key=...)`
  is a stable sort by key; it is modelled with the stable
  `List.insertionSort` over the same comparison.
* The wall clock is an effect: `send_message` takes the current time
  `now : Nat` as an explicit argument.
-/

instance {ε α : Type} [DecidableEq ε] [DecidableEq α] : DecidableEq (Except ε α) := fun a b =>
  match a, b with
  | .ok x, .ok y => if h : x = y then .isTrue (by rw [h]) else .isFalse (by simp [h])
  | .error e, .error e' => if h : e = e' then .isTrue (by rw [h]) else .isFalse (by simp [h])
  | .ok _, .error _ => .isFalse (by simp)
  | .error _, .ok _ => .isFalse (by simp)

/-- A Python exception as surfaced by the modelled code paths:
`ValueError` (validation), `KeyError` (missing dict key). -/
inductive PyErr where
  | valueError (msg : String)
  | keyError
deriving DecidableEq

/-- A parsed message record: a JSON object whose relevant fields are the
string fields `author`, `timestamp`, `content`, any of which may be
absent (`m.get(...)` / `m[...]` semantics). -/
structure MsgRec where
  author : Option String
  timestamp : Option String
  content : Option String
deriving DecidableEq

/-- The content of one file in the `messages/` directory: either text
that `json.load` rejects, or a parsed record. -/
inductive MsgFile where
  | unparsable
  | record (m : MsgRec)
deriving DecidableEq

/-- The content of `last_seen.json`: unparsable (treated as `{}` by
`load_last_seen`) or a mapping reader name -> timestamp string. -/
inductive LastSeenFile where
  | unparsable
  | map (d : List (String × String))
deriving DecidableEq

/-- The durable store: the `messages/` directory as an association of
filenames to file contents, in directory-enumeration order, plus the
cursor-registry file. -/
structure Store where
  files : List (String × MsgFile)
  lastSeen : LastSeenFile
deriving DecidableEq

/-- Lexicographic `<` on character lists by code point, as Python
compares strings.  Executable counterpart of `List.Lex (· < ·)`. -/
def charListLt : List Char → List Char → Bool
  | [], [] => false
  | [], _ :: _ => true
  | _ :: _, [] => false
  | a :: as, b :: bs =>
    if a.toNat < b.toNat then true
    else if b.toNat < a.toNat then false
    else charListLt as bs

/-- Python string `<=` (total order: `a <= b` iff `not (b < a)`). -/
def strLe (a b : String) : Bool := !(charListLt b.data a.data)

/-- Width of the canonical timestamp encoding (the source's ISO-8601 UTC
microsecond strings are fixed-width; the model uses zero-padded decimal
of this width, which has the same order-isomorphism property). -/
def TSW : Nat := 8

/-- The decimal digit character for `d` (clamped above 9; with the
in-range arguments produced by `padTs` it is always a true digit). -/
def digitChar : Nat → Char
  | 0 => '0'
  | 1 => '1'
  | 2 => '2'
  | 3 => '3'
  | 4 => '4'
  | 5 => '5'
  | 6 => '6'
  | 7 => '7'
  | 8 => '8'
  | _ => '9'

/-- Zero-padded fixed-width decimal rendering of `t`, most significant
digit first. -/
def padTs : Nat → Nat → List Char
  | 0, _ => []
  | w + 1, t => digitChar (t / 10 ^ w) :: padTs w (t % 10 ^ w)

/-- `iso_now` / the timestamp text stored in records and filenames:
canonical encoding of the time value `t`. -/
def isoOfNat (t : Nat) : String := String.mk (padTs TSW t)

/-- Numeric value of a digit character. -/
def digitVal (c : Char) : Nat := c.toNat - 48

/-- Decimal digit test by code point. -/
def isDigitChar (c : Char) : Bool := 48 ≤ c.toNat && c.toNat ≤ 57

/-- Value of a most-significant-first digit string. -/
def valDigits (l : List Char) : Nat := l.foldl (fun n c => 10 * n + digitVal c) 0

/-- `parse_iso` (`datetime.fromisoformat`): succeeds exactly on the
canonical timestamp strings, returning the encoded time value. -/
def parse_iso (s : String) : Option Nat :=
  if s.data.length = TSW ∧ s.data.all isDigitChar = true then some (valDigits s.data)
  else none

/-- The characters Python's `str.strip()` removes (ASCII whitespace;
the model restricts authors/contents to strings whose surrounding
whitespace is from this set). -/
def isPySpace (c : Char) : Bool :=
  c = ' ' || c = '\t' || c = '\n' || c = '\r' || c = '\x0b' || c = '\x0c'

/-- Python `str.strip()`: remove leading and trailing whitespace. -/
def pyStrip (s : String) : String :=
  String.mk (((s.data.dropWhile isPySpace).reverse.dropWhile isPySpace).reverse)

/-- The path-unsafe characters rejected in author names
(`['/', '\\', '\x00', '\n', '\r']`). -/
def invalidChars : List Char := ['/', '\\', '\x00', '\n', '\r']

/-- `validate_author`: reject empty/whitespace-only, then strip, then
reject length > 100 and path-unsafe characters; return the stripped
author. -/
def validate_author (author : String) : Except PyErr String :=
  if pyStrip author = "" then .error (.valueError "Author name cannot be empty")
  else if (pyStrip author).length > 100 then
    .error (.valueError "Author name too long (max 100 characters)")
  else if (pyStrip author).data.any (fun c => invalidChars.contains c) then
    .error (.valueError "Author name contains invalid characters")
  else .ok (pyStrip author)

/-- `validate_message`: reject empty/whitespace-only, then strip, then
reject length > 100000; return the stripped content. -/
def validate_message (content : String) : Except PyErr String :=
  if pyStrip content = "" then .error (.valueError "Message content cannot be empty")
  else if (pyStrip content).length > 100000 then
    .error (.valueError "Message content too long (max 100,000 characters)")
  else .ok (pyStrip content)

/-- `timestamp.replace(":", "-")` (identity on the model's canonical
encodings, kept for structural faithfulness). -/
def replaceColons (s : String) : String :=
  String.mk (s.data.map (fun c => if c = ':' then '-' else c))

/-- `f.endswith(".json")`. -/
def endsWithJson (name : String) : Bool := ".json".data.isSuffixOf name.data

/-- Writing a file into the directory (`atomic_write` + `os.replace`):
replace the content under an existing name, else add the file. -/
def setFile : List (String × MsgFile) → String → MsgFile → List (String × MsgFile)
  | [], name, c => [(name, c)]
  | f :: rest, name, c =>
    if f.1 = name then (name, c) :: rest else f :: setFile rest name c

/-- Python dict assignment `d[k] = v` on the registry mapping: replace in
place if the key is present, else append. -/
def dictSet : List (String × String) → String → String → List (String × String)
  | [], k, v => [(k, v)]
  | (k', v') :: rest, k, v =>
    if k' = k then (k, v) :: rest else (k', v') :: dictSet rest k v

/-- `send_message(author, content)`: validate, capture one timestamp
(`now`) used for both filename and record, write the record, and return
it together with the new store. -/
def send_message (s : Store) (now : Nat) (author content : String) :
    Except PyErr (Store × MsgRec) :=
  match validate_author author with
  | .error e => .error e
  | .ok author =>
    match validate_message content with
    | .error e => .error e
    | .ok content =>
      let timestamp := isoOfNat now
      let ts_filename := replaceColons timestamp
      let filename := ts_filename ++ "_" ++ author ++ ".json"
      let message : MsgRec :=
        { author := some author, timestamp := some timestamp, content := some content }
      .ok ({ s with files := setFile s.files filename (.record message) }, message)

/-- `load_last_seen()`: the registry mapping, or `{}` when the file is
missing/unparsable. -/
def load_last_seen (s : Store) : List (String × String) :=
  match s.lastSeen with
  | .unparsable => []
  | .map d => d

/-- Filename order used by `files.sort()`. -/
def nameLe (f g : String × MsgFile) : Prop := strLe f.1 g.1 = true

instance : DecidableRel nameLe := fun _ _ => instDecidableEqBool _ _

/-- `list_message_files()`: the `.json` entries of the directory in
lexicographic filename order (Python's stable `files.sort()`). -/
def list_message_files (s : Store) : List (String × MsgFile) :=
  (s.files.filter (fun f => endsWithJson f.1)).insertionSort nameLe

/-- The sort key `m.get("timestamp", "")` of `get_all_messages`. -/
def sortKey (m : MsgRec) : String := m.timestamp.getD ""

/-- Record order used by `out.sort(key=lambda m: m.get("timestamp", ""))`. -/
def keyLe (m₁ m₂ : MsgRec) : Prop := strLe (sortKey m₁) (sortKey m₂) = true

instance : DecidableRel keyLe := fun _ _ => instDecidableEqBool _ _

/-- `get_all_messages()`: parse each listed file, skipping unparsable
ones, then stable-sort the records by timestamp string. -/
def get_all_messages (s : Store) : List MsgRec :=
  let out := (list_message_files s).filterMap (fun f =>
    match f.2 with
    | .record m => some m
    | .unparsable => none)
  out.insertionSort keyLe

/-- The list comprehension
`[m for m in all_msgs if parse_iso(m["timestamp"]) > seen_dt]`:
raises `KeyError` on a record without a `timestamp` field and
`ValueError` on one whose timestamp does not parse. -/
def filterUnread (seen : Nat) : List MsgRec → Except PyErr (List MsgRec)
  | [] => .ok []
  | m :: rest =>
    match m.timestamp with
    | none => .error .keyError
    | some ts =>
      match parse_iso ts with
      | none => .error (.valueError "Invalid isoformat string")
      | some t =>
        match filterUnread seen rest with
        | .error e => .error e
        | .ok r => .ok (if seen < t then m :: r else r)

/-- `get_unread_for(agent_name)`: all messages when the cursor is absent
or unparsable, else the messages with timestamp strictly greater than
the cursor. -/
def get_unread_for (s : Store) (agent_name : String) : Except PyErr (List MsgRec) :=
  let last_seen := load_last_seen s
  let seen_ts := List.lookup agent_name last_seen
  let all_msgs := get_all_messages s
  match seen_ts with
  | none => .ok all_msgs
  | some ts =>
    match parse_iso ts with
    | none => .ok all_msgs
    | some seen_dt => filterUnread seen_dt all_msgs

/-- `update_last_seen(agent_name, msgs)`: no-op on an empty list, else
set the agent's cursor to the last message's timestamp (`KeyError` if
that record has none) and persist the whole registry. -/
def update_last_seen (s : Store) (agent_name : String) (msgs : List MsgRec) :
    Except PyErr Store :=
  match msgs.getLast? with
  | none => .ok s
  | some last =>
    match last.timestamp with
    | none => .error .keyError
    | some ts =>
      .ok { s with lastSeen := .map (dictSet (load_last_seen s) agent_name ts) }

/-- `cmd_send`: send, then advance the sender's own cursor to the new
message's timestamp and persist the registry. -/
def cmd_send (s : Store) (now : Nat) (author content : String) :
    Except PyErr (Store × MsgRec) :=
  match send_message s now author content with
  | .error e => .error e
  | .ok (s1, message) =>
    match message.author, message.timestamp with
    | some a, some ts =>
      .ok ({ s1 with lastSeen := .map (dictSet (load_last_seen s1) a ts) }, message)
    | _, _ => .error .keyError

/-- The records of the `.json` files that parse, in directory order: the
"stored parsable messages". -/
def storedRecords (s : Store) : List MsgRec :=
  (s.files.filter (fun f => endsWithJson f.1)).filterMap (fun f =>
    match f.2 with
    | .record m => some m
    | .unparsable => none)

/-- A record carries a parsable timestamp. -/
def wfRec (m : MsgRec) : Bool :=
  match m.timestamp with
  | some ts => (parse_iso ts).isSome
  | none => false

/-- Every stored parsable record carries a parsable timestamp. -/
abbrev WellFormedStore (s : Store) : Prop := (storedRecords s).all wfRec = true

/-- The parsed time value of a record (0 when absent/unparsable; used
only under `wfRec`). -/
def tsVal (m : MsgRec) : Nat := ((m.timestamp.bind parse_iso).getD 0)

/-- Whether an operation succeeded (did not raise). -/
def isOk {α : Type} : Except PyErr α → Bool
  | .ok _ => true
  | .error _ => false

theorem char_eq_of_toNat_eq {c d : Char} (h : c.toNat = d.toNat) : c = d := by
  have h2 := congrArg Char.ofNat h
  rwa [Char.ofNat_toNat, Char.ofNat_toNat] at h2

theorem isDigitChar_bounds {c : Char} (h : isDigitChar c = true) :
    48 ≤ c.toNat ∧ c.toNat ≤ 57 := by
  simpa [isDigitChar] using h

theorem digitChar_isDigit (d : Nat) : isDigitChar (digitChar d) = true := by
  unfold digitChar
  split <;> rfl

theorem digitVal_digitChar {d : Nat} (h : d ≤ 9) : digitVal (digitChar d) = d := by
  interval_cases d <;> rfl

theorem digitVal_le_of_isDigit {c : Char} (h : isDigitChar c = true) : digitVal c ≤ 9 := by
  have hb := isDigitChar_bounds h
  unfold digitVal
  omega

theorem padTs_length (w t : Nat) : (padTs w t).length = w := by
  induction w generalizing t with
  | zero => rfl
  | succ w ih => simp [padTs, ih]

theorem padTs_digits (w t : Nat) : (padTs w t).all isDigitChar = true := by
  induction w generalizing t with
  | zero => rfl
  | succ w ih => simp [padTs, digitChar_isDigit, ih]

theorem valDigits_foldl (l : List Char) (a : Nat) :
    l.foldl (fun n c => 10 * n + digitVal c) a = a * 10 ^ l.length + valDigits l := by
  induction l generalizing a with
  | nil => simp [valDigits]
  | cons c l ih =>
    simp only [List.foldl_cons, List.length_cons, valDigits]
    rw [ih (10 * a + digitVal c), ih (10 * 0 + digitVal c)]
    ring

theorem valDigits_cons (c : Char) (l : List Char) :
    valDigits (c :: l) = digitVal c * 10 ^ l.length + valDigits l := by
  show (c :: l).foldl _ 0 = _
  rw [List.foldl_cons, valDigits_foldl]
  ring

theorem valDigits_lt (l : List Char) (h : l.all isDigitChar = true) :
    valDigits l < 10 ^ l.length := by
  induction l with
  | nil => simp [valDigits]
  | cons c l ih =>
    simp only [List.all_cons, Bool.and_eq_true] at h
    have h1 := digitVal_le_of_isDigit h.1
    have h2 := ih h.2
    have h3 : digitVal c * 10 ^ l.length ≤ 9 * 10 ^ l.length :=
      Nat.mul_le_mul_right _ h1
    rw [valDigits_cons]
    simp only [List.length_cons, pow_succ]
    omega

theorem valDigits_padTs {w t : Nat} (h : t < 10 ^ w) : valDigits (padTs w t) = t := by
  induction w generalizing t with
  | zero =>
    simp [padTs, valDigits]
    omega
  | succ w ih =>
    have hp : 0 < 10 ^ w := Nat.pos_pow_of_pos w (by omega)
    have hd : t / 10 ^ w ≤ 9 := by
      have h10 : t < 10 * 10 ^ w := by
        rw [pow_succ] at h
        omega
      have := (Nat.div_lt_iff_lt_mul hp).mpr (by omega : t < 10 * 10 ^ w)
      omega
    rw [padTs, valDigits_cons, padTs_length, digitVal_digitChar hd,
      ih (Nat.mod_lt _ hp)]
    rw [Nat.mul_comm]
    exact Nat.div_add_mod t (10 ^ w)

theorem parse_iso_some_of {s : String} (h1 : s.data.length = TSW)
    (h2 : s.data.all isDigitChar = true) : parse_iso s = some (valDigits s.data) := by
  rw [parse_iso, if_pos ⟨h1, h2⟩]

theorem parse_iso_props {s : String} {t : Nat} (h : parse_iso s = some t) :
    s.data.length = TSW ∧ s.data.all isDigitChar = true ∧ valDigits s.data = t := by
  by_cases hc : s.data.length = TSW ∧ s.data.all isDigitChar = true
  · rw [parse_iso, if_pos hc] at h
    exact ⟨hc.1, hc.2, Option.some.inj h⟩
  · rw [parse_iso, if_neg hc] at h
    exact absurd h (by simp)

theorem parse_iso_isoOfNat (t : Nat) :
    parse_iso (isoOfNat t) = some (valDigits (padTs TSW t)) :=
  parse_iso_some_of (padTs_length _ _) (padTs_digits _ _)

theorem parse_iso_isoOfNat_of_lt {t : Nat} (h : t < 10 ^ TSW) :
    parse_iso (isoOfNat t) = some t := by
  rw [parse_iso_isoOfNat]
  exact congrArg some (valDigits_padTs h)

theorem lex_of_valDigits_lt (l₁ : List Char) : ∀ (l₂ : List Char),
    l₁.length = l₂.length → l₁.all isDigitChar = true → l₂.all isDigitChar = true →
    valDigits l₁ < valDigits l₂ → List.Lex (· < ·) l₁ l₂ := by
  induction l₁ with
  | nil =>
    intro l₂ hl _ _ hv
    cases l₂ with
    | nil => simp [valDigits] at hv
    | cons b bs => simp at hl
  | cons a as ih =>
    intro l₂ hl h1 h2 hv
    cases l₂ with
    | nil => simp at hl
    | cons b bs =>
      simp only [List.length_cons, Nat.succ.injEq] at hl
      simp only [List.all_cons, Bool.and_eq_true] at h1 h2
      have ha := isDigitChar_bounds h1.1
      have hb := isDigitChar_bounds h2.1
      rw [valDigits_cons, valDigits_cons, hl] at hv
      have hva := valDigits_lt as h1.2
      have hvb := valDigits_lt bs h2.2
      rw [hl] at hva
      rcases Nat.lt_trichotomy (digitVal a) (digitVal b) with hd | hd | hd
      · refine List.Lex.rel ?_
        show a.toNat < b.toNat
        unfold digitVal at hd
        omega
      · have hab : a = b := char_eq_of_toNat_eq (by unfold digitVal at hd; omega)
        subst hab
        refine List.Lex.cons (ih bs hl h1.2 h2.2 ?_)
        rw [hd] at hv
        omega
      · exfalso
        have hd9 : digitVal b + 1 ≤ digitVal a := hd
        have hmul : (digitVal b + 1) * 10 ^ bs.length ≤ digitVal a * 10 ^ bs.length :=
          Nat.mul_le_mul_right _ hd9
        have hexp : (digitVal b + 1) * 10 ^ bs.length
            = digitVal b * 10 ^ bs.length + 10 ^ bs.length := by ring
        omega

theorem charListLt_iff_lt : ∀ (l₁ l₂ : List Char), charListLt l₁ l₂ = true ↔ l₁ < l₂ := by
  intro l₁
  induction l₁ with
  | nil =>
    intro l₂
    cases l₂ with
    | nil => exact iff_of_false (by simp [charListLt]) (List.Lex.not_nil_right _ _)
    | cons b bs => exact iff_of_true rfl List.Lex.nil
  | cons a as ih =>
    intro l₂
    cases l₂ with
    | nil => exact iff_of_false (by simp [charListLt]) (List.Lex.not_nil_right _ _)
    | cons b bs =>
      simp only [charListLt]
      by_cases hab : a.toNat < b.toNat
      · rw [if_pos hab]
        exact iff_of_true rfl (List.Lex.rel hab)
      · rw [if_neg hab]
        by_cases hba : b.toNat < a.toNat
        · rw [if_pos hba]
          refine iff_of_false (by simp) ?_
          intro h
          cases h with
          | rel h' => exact hab h'
          | cons h' => omega
        · rw [if_neg hba]
          have hab2 : a = b := char_eq_of_toNat_eq (by omega)
          subst hab2
          constructor
          · intro h
            exact List.Lex.cons ((ih bs).mp h)
          · intro h
            cases h with
            | rel h' => exact absurd h' (lt_irrefl a)
            | cons h' => exact (ih bs).mpr h'

theorem strLe_iff {a b : String} : strLe a b = true ↔ a.data ≤ b.data := by
  unfold strLe
  rw [Bool.not_eq_true']
  constructor
  · intro h
    refine not_lt.mp (fun hlt => ?_)
    rw [(charListLt_iff_lt b.data a.data).mpr hlt] at h
    exact Bool.noConfusion h
  · intro h
    refine Bool.eq_false_iff.mpr (fun htrue => ?_)
    exact absurd h (not_le.mpr ((charListLt_iff_lt b.data a.data).mp htrue))

theorem parse_le_of_strLe {s₁ s₂ : String} {t₁ t₂ : Nat}
    (h₁ : parse_iso s₁ = some t₁) (h₂ : parse_iso s₂ = some t₂)
    (h : strLe s₁ s₂ = true) : t₁ ≤ t₂ := by
  obtain ⟨hl₁, hd₁, hv₁⟩ := parse_iso_props h₁
  obtain ⟨hl₂, hd₂, hv₂⟩ := parse_iso_props h₂
  by_contra hlt
  push_neg at hlt
  have hlex : s₂.data < s₁.data :=
    lex_of_valDigits_lt _ _ (by rw [hl₂, hl₁]) hd₂ hd₁ (by rw [hv₂, hv₁]; exact hlt)
  exact absurd (strLe_iff.mp h) (not_le.mpr hlex)

instance : IsTotal MsgRec keyLe :=
  ⟨fun a b => by
    rcases le_total (sortKey a).data (sortKey b).data with h | h
    · exact Or.inl (strLe_iff.mpr h)
    · exact Or.inr (strLe_iff.mpr h)⟩

instance : IsTrans MsgRec keyLe :=
  ⟨fun _ _ _ hab hbc => strLe_iff.mpr (le_trans (strLe_iff.mp hab) (strLe_iff.mp hbc))⟩

instance : IsTotal (String × MsgFile) nameLe :=
  ⟨fun a b => by
    rcases le_total a.1.data b.1.data with h | h
    · exact Or.inl (strLe_iff.mpr h)
    · exact Or.inr (strLe_iff.mpr h)⟩

instance : IsTrans (String × MsgFile) nameLe :=
  ⟨fun _ _ _ hab hbc => strLe_iff.mpr (le_trans (strLe_iff.mp hab) (strLe_iff.mp hbc))⟩

theorem get_all_messages_perm (s : Store) : (get_all_messages s).Perm (storedRecords s) := by
  unfold get_all_messages storedRecords list_message_files
  refine (List.perm_insertionSort _ _).trans ?_
  exact List.Perm.filterMap _ (List.perm_insertionSort _ _)

theorem get_all_messages_sortedKey (s : Store) : List.Pairwise keyLe (get_all_messages s) :=
  List.sorted_insertionSort keyLe _

theorem get_all_messages_files_eq {s₁ s₂ : Store} (h : s₁.files = s₂.files) :
    get_all_messages s₁ = get_all_messages s₂ := by
  unfold get_all_messages list_message_files
  rw [h]

theorem wf_of_mem_get_all {s : Store} (hwf : WellFormedStore s) {m : MsgRec}
    (hm : m ∈ get_all_messages s) : wfRec m = true := by
  have hmem := (get_all_messages_perm s).mem_iff.mp hm
  exact List.all_eq_true.mp hwf _ hmem

theorem wfRec_spec {m : MsgRec} (h : wfRec m = true) :
    ∃ ts v, m.timestamp = some ts ∧ parse_iso ts = some v ∧ tsVal m = v := by
  cases hm : m.timestamp with
  | none =>
    unfold wfRec at h
    rw [hm] at h
    exact Bool.noConfusion h
  | some ts =>
    unfold wfRec at h
    rw [hm] at h
    replace h : (parse_iso ts).isSome = true := h
    cases hp : parse_iso ts with
    | none => rw [hp] at h; exact Bool.noConfusion h
    | some v => exact ⟨ts, v, rfl, hp, by simp [tsVal, hm, hp]⟩

theorem tsVal_le_of_keyLe {m₁ m₂ : MsgRec} (h1 : wfRec m₁ = true) (h2 : wfRec m₂ = true)
    (h : keyLe m₁ m₂) : tsVal m₁ ≤ tsVal m₂ := by
  obtain ⟨ts₁, v₁, hm₁, hp₁, hv₁⟩ := wfRec_spec h1
  obtain ⟨ts₂, v₂, hm₂, hp₂, hv₂⟩ := wfRec_spec h2
  unfold keyLe sortKey at h
  rw [hm₁, hm₂] at h
  rw [hv₁, hv₂]
  exact parse_le_of_strLe hp₁ hp₂ (by simpa using h)

theorem pairwise_tsVal_get_all {s : Store} (hwf : WellFormedStore s) :
    List.Pairwise (fun m₁ m₂ => tsVal m₁ ≤ tsVal m₂) (get_all_messages s) := by
  refine (get_all_messages_sortedKey s).imp_of_mem ?_
  intro a b ha hb hab
  exact tsVal_le_of_keyLe (wf_of_mem_get_all hwf ha) (wf_of_mem_get_all hwf hb) hab

theorem lookup_dictSet_self (d : List (String × String)) (k v : String) :
    List.lookup k (dictSet d k v) = some v := by
  induction d with
  | nil => simp [dictSet, List.lookup_cons]
  | cons kv rest ih =>
    obtain ⟨k', v'⟩ := kv
    by_cases h : k' = k
    · subst h
      simp [dictSet, List.lookup_cons]
    · rw [dictSet, if_neg h, List.lookup_cons]
      have hne : (k == k') = false := by
        simp [Ne.symm h]
      rw [hne]
      exact ih

theorem lookup_dictSet_ne (d : List (String × String)) (k v k₂ : String) (h : k₂ ≠ k) :
    List.lookup k₂ (dictSet d k v) = List.lookup k₂ d := by
  induction d with
  | nil =>
    show List.lookup k₂ [(k, v)] = List.lookup k₂ []
    rw [List.lookup_cons]
    have hne : (k₂ == k) = false := by simp [h]
    rw [hne]
  | cons kv rest ih =>
    obtain ⟨k', v'⟩ := kv
    by_cases hk : k' = k
    · subst hk
      rw [dictSet, if_pos rfl, List.lookup_cons, List.lookup_cons]
      have hne : (k₂ == k') = false := by simp [h]
      rw [hne]
    · rw [dictSet, if_neg hk, List.lookup_cons, List.lookup_cons]
      cases hbe : k₂ == k'
      · exact ih
      · rfl

theorem mem_of_getLast?_eq {α : Type} {l : List α} {a : α} (h : l.getLast? = some a) :
    a ∈ l := by
  obtain ⟨hne, heq⟩ := List.mem_getLast?_eq_getLast (show a ∈ l.getLast? from by
    rw [Option.mem_def]; exact h)
  rw [heq]
  exact List.getLast_mem hne

theorem tsVal_le_getLast {l : List MsgRec} {la : MsgRec}
    (hp : List.Pairwise (fun m₁ m₂ => tsVal m₁ ≤ tsVal m₂) l)
    (hl : l.getLast? = some la) : ∀ m ∈ l, tsVal m ≤ tsVal la := by
  induction l with
  | nil => simp at hl
  | cons x rest ih =>
    cases rest with
    | nil =>
      rw [List.getLast?_singleton] at hl
      intro m hm
      simp at hm
      rw [hm, Option.some.inj hl]
    | cons y rest2 =>
      rw [List.getLast?_cons_cons] at hl
      intro m hm
      rcases List.mem_cons.mp hm with rfl | hm2
      · have hla : la ∈ y :: rest2 := mem_of_getLast?_eq hl
        exact (List.pairwise_cons.mp hp).1 la hla
      · exact ih hp.of_cons hl m hm2

theorem filterUnread_eq_ok {seen : Nat} {l : List MsgRec} (h : ∀ m ∈ l, wfRec m = true) :
    filterUnread seen l = .ok (l.filter (fun m => decide (seen < tsVal m))) := by
  induction l with
  | nil => rfl
  | cons m rest ih =>
    obtain ⟨ts, v, hm, hp, hv⟩ := wfRec_spec (h m (by simp))
    have ihr := ih (fun m' hm' => h m' (by simp [hm']))
    by_cases hc : seen < v
    · simp [filterUnread, hm, hp, ihr, List.filter_cons, hv, hc]
    · simp [filterUnread, hm, hp, ihr, List.filter_cons, hv, hc]

theorem mem_of_filterUnread_ok {seen : Nat} : ∀ {l r : List MsgRec},
    filterUnread seen l = .ok r → ∀ {m : MsgRec}, m ∈ r →
    ∃ ts v, m.timestamp = some ts ∧ parse_iso ts = some v ∧ seen < v := by
  intro l
  induction l with
  | nil =>
    intro r h m hm
    rw [filterUnread] at h
    cases h
    simp at hm
  | cons x rest ih =>
    intro r h m hm
    cases hx : x.timestamp with
    | none => simp [filterUnread, hx] at h
    | some ts =>
      cases hp : parse_iso ts with
      | none => simp [filterUnread, hx, hp] at h
      | some v =>
        cases hr : filterUnread seen rest with
        | error e => simp [filterUnread, hx, hp, hr] at h
        | ok rr =>
          simp only [filterUnread, hx, hp, hr, Except.ok.injEq] at h
          by_cases hc : seen < v
          · rw [if_pos hc] at h
            rw [← h] at hm
            rcases List.mem_cons.mp hm with rfl | hm2
            · exact ⟨ts, v, hx, hp, hc⟩
            · exact ih hr hm2
          · rw [if_neg hc] at h
            rw [← h] at hm
            exact ih hr hm

theorem get_unread_for_absent {s : Store} {r : String}
    (h : List.lookup r (load_last_seen s) = none) :
    get_unread_for s r = .ok (get_all_messages s) := by
  simp [get_unread_for, h]

theorem get_unread_for_unparsable {s : Store} {r ts : String}
    (h : List.lookup r (load_last_seen s) = some ts) (hp : parse_iso ts = none) :
    get_unread_for s r = .ok (get_all_messages s) := by
  simp [get_unread_for, h, hp]

theorem get_unread_for_parsable {s : Store} {r ts : String} {t : Nat}
    (h : List.lookup r (load_last_seen s) = some ts) (hp : parse_iso ts = some t) :
    get_unread_for s r = filterUnread t (get_all_messages s) := by
  simp [get_unread_for, h, hp]

theorem get_unread_max {s : Store} {r : String} {l : List MsgRec} {la : MsgRec}
    (hwf : WellFormedStore s)
    (h : get_unread_for s r = .ok l)
    (hla : l.getLast? = some la) :
    ∀ m ∈ get_all_messages s, tsVal m ≤ tsVal la := by
  have hall := pairwise_tsVal_get_all hwf
  cases hc : List.lookup r (load_last_seen s) with
  | none =>
    rw [get_unread_for_absent hc] at h
    have hl : l = get_all_messages s := (Except.ok.inj h).symm
    subst hl
    exact tsVal_le_getLast hall hla
  | some ts =>
    cases hp : parse_iso ts with
    | none =>
      rw [get_unread_for_unparsable hc hp] at h
      have hl : l = get_all_messages s := (Except.ok.inj h).symm
      subst hl
      exact tsVal_le_getLast hall hla
    | some t =>
      rw [get_unread_for_parsable hc hp] at h
      rw [filterUnread_eq_ok (fun m hm => wf_of_mem_get_all hwf hm)] at h
      have hl : l = (get_all_messages s).filter (fun m => decide (t < tsVal m)) :=
        (Except.ok.inj h).symm
      subst hl
      have hlast := tsVal_le_getLast (hall.filter _) hla
      have hlat : t < tsVal la := by
        have := (List.mem_filter.mp (mem_of_getLast?_eq hla)).2
        simpa using this
      intro m hm
      by_cases hmt : t < tsVal m
      · exact hlast m (List.mem_filter.mpr ⟨hm, by simpa using hmt⟩)
      · omega

/-- The author-side validation failure condition of `send`: empty after
stripping, longer than 100 characters after stripping, or containing a
path-unsafe character after stripping. -/
def authorBad (a : String) : Bool :=
  decide (pyStrip a = "") || decide ((pyStrip a).length > 100) ||
    (pyStrip a).data.any (fun c => invalidChars.contains c)

/-- The content-side validation failure condition of `send`: empty after
stripping or longer than 100000 characters after stripping. -/
def contentBad (c : String) : Bool :=
  decide (pyStrip c = "") || decide ((pyStrip c).length > 100000)

theorem validate_author_spec (author : String) :
    (authorBad author = false ∧ validate_author author = .ok (pyStrip author)) ∨
    (authorBad author = true ∧ ∃ e, validate_author author = .error e) := by
  unfold validate_author authorBad
  by_cases h1 : pyStrip author = ""
  · refine Or.inr ⟨by rw [decide_eq_true h1]; rfl, ⟨_, if_pos h1⟩⟩
  · by_cases h2 : (pyStrip author).length > 100
    · refine Or.inr ⟨by rw [decide_eq_true h2]; simp,
        ⟨.valueError "Author name too long (max 100 characters)", ?_⟩⟩
      rw [if_neg h1, if_pos h2]
    · by_cases h3 : (pyStrip author).data.any (fun c => invalidChars.contains c) = true
      · refine Or.inr ⟨by rw [h3]; simp,
          ⟨.valueError "Author name contains invalid characters", ?_⟩⟩
        rw [if_neg h1, if_neg h2, if_pos h3]
      · refine Or.inl ⟨?_, ?_⟩
        · rw [decide_eq_false h1, decide_eq_false h2, Bool.eq_false_iff.mpr h3]
          rfl
        · rw [if_neg h1, if_neg h2, if_neg h3]

theorem validate_message_spec (content : String) :
    (contentBad content = false ∧ validate_message content = .ok (pyStrip content)) ∨
    (contentBad content = true ∧ ∃ e, validate_message content = .error e) := by
  unfold validate_message contentBad
  by_cases h1 : pyStrip content = ""
  · refine Or.inr ⟨by rw [decide_eq_true h1]; rfl, ⟨_, if_pos h1⟩⟩
  · by_cases h2 : (pyStrip content).length > 100000
    · refine Or.inr ⟨by rw [decide_eq_true h2]; simp,
        ⟨.valueError "Message content too long (max 100,000 characters)", ?_⟩⟩
      rw [if_neg h1, if_pos h2]
    · refine Or.inl ⟨?_, ?_⟩
      · rw [decide_eq_false h1, decide_eq_false h2]
        rfl
      · rw [if_neg h1, if_neg h2]

theorem send_message_ok_spec {s : Store} {now : Nat} {author content : String}
    {s' : Store} {m : MsgRec}
    (h : send_message s now author content = .ok (s', m)) :
    m = ⟨some (pyStrip author), some (isoOfNat now), some (pyStrip content)⟩ ∧
    s' = { s with files := setFile s.files (replaceColons (isoOfNat now) ++ "_" ++ pyStrip author ++ ".json") (.record m) } ∧
    authorBad author = false ∧ contentBad content = false := by
  rcases validate_author_spec author with ⟨hab, hva⟩ | ⟨hab, e, hva⟩
  · rcases validate_message_spec content with ⟨hcb, hvm⟩ | ⟨hcb, e, hvm⟩
    · simp only [send_message, hva, hvm, Except.ok.injEq, Prod.mk.injEq] at h
      obtain ⟨hs, hm⟩ := h
      refine ⟨hm.symm, ?_, hab, hcb⟩
      rw [← hs, hm]
    · simp [send_message, hva, hvm] at h
  · simp [send_message, hva] at h

theorem cmd_send_ok_spec {s : Store} {now : Nat} {author content : String}
    {s' : Store} {msg : MsgRec}
    (h : cmd_send s now author content = .ok (s', msg)) :
    msg = ⟨some (pyStrip author), some (isoOfNat now), some (pyStrip content)⟩ ∧
    s'.files = setFile s.files
      (replaceColons (isoOfNat now) ++ "_" ++ pyStrip author ++ ".json") (.record msg) ∧
    s'.lastSeen = .map (dictSet (load_last_seen s) (pyStrip author) (isoOfNat now)) := by
  cases hsm : send_message s now author content with
  | error e => simp [cmd_send, hsm] at h
  | ok pr =>
    obtain ⟨s1, m1⟩ := pr
    obtain ⟨hm1, hs1, _, _⟩ := send_message_ok_spec hsm
    subst hm1
    subst hs1
    simp only [cmd_send, hsm, Except.ok.injEq, Prod.mk.injEq] at h
    obtain ⟨hs, hm⟩ := h
    subst hm
    refine ⟨rfl, ?_, ?_⟩
    · rw [← hs]
    · rw [← hs]
      rfl

theorem get_unread_subset {s : Store} {r : String} {l : List MsgRec}
    (hwf : WellFormedStore s) (h : get_unread_for s r = .ok l) :
    ∀ m ∈ l, m ∈ get_all_messages s := by
  cases hc : List.lookup r (load_last_seen s) with
  | none =>
    rw [get_unread_for_absent hc] at h
    have he := Except.ok.inj h
    intro m hm
    rw [← he] at hm
    exact hm
  | some ts =>
    cases hp : parse_iso ts with
    | none =>
      rw [get_unread_for_unparsable hc hp] at h
      have he := Except.ok.inj h
      intro m hm
      rw [← he] at hm
      exact hm
    | some t =>
      rw [get_unread_for_parsable hc hp,
        filterUnread_eq_ok (fun m hm => wf_of_mem_get_all hwf hm)] at h
      have he := Except.ok.inj h
      intro m hm
      rw [← he] at hm
      exact (List.mem_filter.mp hm).1

theorem pairwise_tsVal_lt_get_all {s : Store} (hwf : WellFormedStore s)
    (hnd : ((storedRecords s).map tsVal).Nodup) :
    List.Pairwise (fun m₁ m₂ => tsVal m₁ < tsVal m₂) (get_all_messages s) := by
  have hle := pairwise_tsVal_get_all hwf
  have hnd2 : ((get_all_messages s).map tsVal).Nodup :=
    ((get_all_messages_perm s).map tsVal).nodup_iff.mpr hnd
  have hne : List.Pairwise (fun m₁ m₂ => tsVal m₁ ≠ tsVal m₂) (get_all_messages s) :=
    List.pairwise_map.mp hnd2
  exact (hle.and hne).imp (fun h => lt_of_le_of_ne h.1 h.2)

/-- Claim C1 (confirmed): for every valid author and content, the send
operation (`cmd_send` = `send_message` plus the registry update) advances
the sender's own cursor in the registry to the new message's timestamp,
and an immediately following `fetchUnread` for that author, with no
intervening sends, never returns a list containing that message. -/
theorem c1_send_advances_cursor_and_self_excludes
    (s : Store) (now : Nat) (author content : String) (s' : Store) (msg : MsgRec)
    (h : cmd_send s now author content = .ok (s', msg)) :
    List.lookup (pyStrip author) (load_last_seen s') = some (isoOfNat now) ∧
    (∀ l, get_unread_for s' (pyStrip author) = .ok l → msg ∉ l) := by
  obtain ⟨hmsg, hfiles, hreg⟩ := cmd_send_ok_spec h
  have hload : load_last_seen s'
      = dictSet (load_last_seen s) (pyStrip author) (isoOfNat now) := by
    unfold load_last_seen
    rw [hreg]
    rfl
  have hcur : List.lookup (pyStrip author) (load_last_seen s') = some (isoOfNat now) := by
    rw [hload]
    exact lookup_dictSet_self _ _ _
  refine ⟨hcur, ?_⟩
  intro l hl hmem
  have hpar := parse_iso_isoOfNat now
  rw [get_unread_for_parsable hcur hpar] at hl
  obtain ⟨ts, v, hts, hpv, hlt⟩ := mem_of_filterUnread_ok hl hmem
  rw [hmsg] at hts
  have hts2 : ts = isoOfNat now := (Option.some.inj hts).symm
  subst hts2
  rw [hpar] at hpv
  have hv2 : v = valDigits (padTs TSW now) := (Option.some.inj hpv).symm
  subst hv2
  exact lt_irrefl _ hlt

/-- Witness for C1 at a concrete send into an empty store. -/
theorem c1_witness :
    List.lookup (pyStrip "alice")
      (load_last_seen ⟨[("00000005_alice.json",
          MsgFile.record ⟨some "alice", some "00000005", some "hi"⟩)],
        LastSeenFile.map [("alice", "00000005")]⟩) = some (isoOfNat 5) ∧
    (∀ l, get_unread_for ⟨[("00000005_alice.json",
          MsgFile.record ⟨some "alice", some "00000005", some "hi"⟩)],
        LastSeenFile.map [("alice", "00000005")]⟩ (pyStrip "alice") = .ok l →
      (⟨some "alice", some "00000005", some "hi"⟩ : MsgRec) ∉ l) :=
  c1_send_advances_cursor_and_self_excludes ⟨[], .map []⟩ 5 "alice" "hi" _ _ (by decide)

/-- Claim C3 (confirmed): when the reader's registry entry is present and
parses as time `t`, `get_unread_for` returns exactly the stored parsable
records with timestamp strictly greater than `t` (timestamp equal to `t`
excluded), in ascending timestamp order. -/
theorem c3_unread_strictly_after_cursor (s : Store) (r ts : String) (t : Nat)
    (hcur : List.lookup r (load_last_seen s) = some ts)
    (hparse : parse_iso ts = some t)
    (hwf : WellFormedStore s) :
    get_unread_for s r = .ok ((get_all_messages s).filter (fun m => decide (t < tsVal m))) ∧
    ((get_all_messages s).filter (fun m => decide (t < tsVal m))).Perm
      ((storedRecords s).filter (fun m => decide (t < tsVal m))) ∧
    List.Pairwise (fun m₁ m₂ => tsVal m₁ ≤ tsVal m₂)
      ((get_all_messages s).filter (fun m => decide (t < tsVal m))) := by
  refine ⟨?_, (get_all_messages_perm s).filter _, (pairwise_tsVal_get_all hwf).filter _⟩
  rw [get_unread_for_parsable hcur hparse]
  exact filterUnread_eq_ok (fun m hm => wf_of_mem_get_all hwf hm)

/-- Witness for C3: cursor at time 3, one older and one newer message. -/
theorem c3_witness :
    get_unread_for ⟨[("a.json", MsgFile.record ⟨some "a", some "00000002", some "x"⟩),
        ("b.json", MsgFile.record ⟨some "b", some "00000007", some "y"⟩)],
      LastSeenFile.map [("r", "00000003")]⟩ "r" =
      .ok ((get_all_messages ⟨[("a.json", MsgFile.record ⟨some "a", some "00000002", some "x"⟩),
        ("b.json", MsgFile.record ⟨some "b", some "00000007", some "y"⟩)],
      LastSeenFile.map [("r", "00000003")]⟩).filter (fun m => decide (3 < tsVal m))) ∧
    ((get_all_messages ⟨[("a.json", MsgFile.record ⟨some "a", some "00000002", some "x"⟩),
        ("b.json", MsgFile.record ⟨some "b", some "00000007", some "y"⟩)],
      LastSeenFile.map [("r", "00000003")]⟩).filter (fun m => decide (3 < tsVal m))).Perm
      ((storedRecords ⟨[("a.json", MsgFile.record ⟨some "a", some "00000002", some "x"⟩),
        ("b.json", MsgFile.record ⟨some "b", some "00000007", some "y"⟩)],
      LastSeenFile.map [("r", "00000003")]⟩).filter (fun m => decide (3 < tsVal m))) ∧
    List.Pairwise (fun m₁ m₂ => tsVal m₁ ≤ tsVal m₂)
      ((get_all_messages ⟨[("a.json", MsgFile.record ⟨some "a", some "00000002", some "x"⟩),
        ("b.json", MsgFile.record ⟨some "b", some "00000007", some "y"⟩)],
      LastSeenFile.map [("r", "00000003")]⟩).filter (fun m => decide (3 < tsVal m))) :=
  c3_unread_strictly_after_cursor _ "r" "00000003" 3 (by decide) (by decide) (by decide)

/-- Claim C4 (confirmed): a reader whose registry entry is absent, or
present but unparsable as a timestamp, receives the entire stored history
from `get_unread_for` (never an empty degradation). -/
theorem c4_absent_or_unparsable_cursor_returns_all (s : Store) (r : String)
    (h : List.lookup r (load_last_seen s) = none ∨
      ∃ ts, List.lookup r (load_last_seen s) = some ts ∧ parse_iso ts = none) :
    get_unread_for s r = .ok (get_all_messages s) ∧
    (get_all_messages s).Perm (storedRecords s) := by
  refine ⟨?_, get_all_messages_perm s⟩
  rcases h with h | ⟨ts, h, hp⟩
  · exact get_unread_for_absent h
  · exact get_unread_for_unparsable h hp

/-- Witness for C4: a reader not in the registry gets the whole history. -/
theorem c4_witness :
    get_unread_for ⟨[("a.json", MsgFile.record ⟨some "a", some "00000003", some "x"⟩)],
      LastSeenFile.map [("bob", "00000001")]⟩ "alice" =
      .ok (get_all_messages ⟨[("a.json", MsgFile.record ⟨some "a", some "00000003", some "x"⟩)],
        LastSeenFile.map [("bob", "00000001")]⟩) ∧
    (get_all_messages ⟨[("a.json", MsgFile.record ⟨some "a", some "00000003", some "x"⟩)],
      LastSeenFile.map [("bob", "00000001")]⟩).Perm
      (storedRecords ⟨[("a.json", MsgFile.record ⟨some "a", some "00000003", some "x"⟩)],
        LastSeenFile.map [("bob", "00000001")]⟩) :=
  c4_absent_or_unparsable_cursor_returns_all _ "alice" (Or.inl (by decide))

/-- Claim C7 (confirmed): the cursor-advance step with an empty delivered
list returns the store unchanged: no write happens and the registry
record is bit-for-bit untouched. -/
theorem c7_empty_advance_noop (s : Store) (r : String) :
    update_last_seen s r [] = .ok s := rfl

/-- Claim C8 (confirmed): for a non-empty delivered list in ascending
timestamp order whose last record carries timestamp `ts`, the
cursor-advance step persists the whole registry with the reader's entry
set to `ts`, leaving every other reader's entry as loaded. -/
theorem c8_advance_sets_cursor_to_last (s : Store) (r : String)
    (msgs : List MsgRec) (last : MsgRec) (ts : String)
    (hlast : msgs.getLast? = some last)
    (hts : last.timestamp = some ts)
    (hsorted : List.Pairwise (fun m₁ m₂ => tsVal m₁ ≤ tsVal m₂) msgs) :
    update_last_seen s r msgs =
      .ok { s with lastSeen := .map (dictSet (load_last_seen s) r ts) } ∧
    List.lookup r (dictSet (load_last_seen s) r ts) = some ts ∧
    (∀ r₂, r₂ ≠ r →
      List.lookup r₂ (dictSet (load_last_seen s) r ts) = List.lookup r₂ (load_last_seen s)) := by
  refine ⟨?_, lookup_dictSet_self _ _ _, fun r₂ h₂ => lookup_dictSet_ne _ _ _ _ h₂⟩
  simp [update_last_seen, hlast, hts]

/-- Witness for C8 with a two-element ascending delivered list. -/
theorem c8_witness :
    update_last_seen ⟨[], LastSeenFile.map [("bob", "00000001")]⟩ "alice"
        [⟨some "x", some "00000002", some "y"⟩, ⟨some "z", some "00000007", some "w"⟩] =
      .ok { files := ([] : List (String × MsgFile)),
            lastSeen := .map (dictSet
              (load_last_seen ⟨[], LastSeenFile.map [("bob", "00000001")]⟩)
              "alice" "00000007") } ∧
    List.lookup "alice" (dictSet
      (load_last_seen ⟨[], LastSeenFile.map [("bob", "00000001")]⟩)
      "alice" "00000007") = some "00000007" ∧
    (∀ r₂, r₂ ≠ "alice" →
      List.lookup r₂ (dictSet
        (load_last_seen ⟨[], LastSeenFile.map [("bob", "00000001")]⟩)
        "alice" "00000007") =
      List.lookup r₂ (load_last_seen ⟨[], LastSeenFile.map [("bob", "00000001")]⟩)) :=
  c8_advance_sets_cursor_to_last ⟨[], LastSeenFile.map [("bob", "00000001")]⟩ "alice"
    [⟨some "x", some "00000002", some "y"⟩, ⟨some "z", some "00000007", some "w"⟩]
    ⟨some "z", some "00000007", some "w"⟩ "00000007"
    (by decide) (by decide) (by decide)

/-- Claim C5 (confirmed): for stores whose parsable records carry
parsable, pairwise-distinct timestamps, `get_all_messages` returns
exactly those records sorted strictly ascending by timestamp, and its
output is the same for every enumeration order of the directory. -/
theorem c5_fetch_all_sorted_ascending (s : Store)
    (hwf : WellFormedStore s)
    (hnd : ((storedRecords s).map tsVal).Nodup) :
    (get_all_messages s).Perm (storedRecords s) ∧
    List.Pairwise (fun m₁ m₂ => tsVal m₁ < tsVal m₂) (get_all_messages s) ∧
    (∀ s₂ : Store, s₂.files.Perm s.files → get_all_messages s₂ = get_all_messages s) := by
  refine ⟨get_all_messages_perm s, pairwise_tsVal_lt_get_all hwf hnd, ?_⟩
  intro s₂ hperm
  have hsr : (storedRecords s₂).Perm (storedRecords s) := by
    unfold storedRecords
    exact (hperm.filter _).filterMap _
  have hwf₂ : WellFormedStore s₂ := by
    have hwf' := List.all_eq_true.mp hwf
    refine List.all_eq_true.mpr ?_
    intro x hx
    exact hwf' x (hsr.mem_iff.mp hx)
  have hnd₂ : ((storedRecords s₂).map tsVal).Nodup := (hsr.map tsVal).nodup_iff.mpr hnd
  have hg : (get_all_messages s₂).Perm (get_all_messages s) :=
    ((get_all_messages_perm s₂).trans hsr).trans (get_all_messages_perm s).symm
  haveI : IsAntisymm MsgRec (fun m₁ m₂ => tsVal m₁ < tsVal m₂) :=
    ⟨fun _ _ h1 h2 => absurd h2 (by omega)⟩
  exact List.eq_of_perm_of_sorted hg (pairwise_tsVal_lt_get_all hwf₂ hnd₂)
    (pairwise_tsVal_lt_get_all hwf hnd)

/-- Witness for C5 with two records stored in reverse timestamp order. -/
theorem c5_witness :
    (get_all_messages ⟨[("b.json", MsgFile.record ⟨some "a", some "00000009", some "x"⟩),
        ("a.json", MsgFile.record ⟨some "b", some "00000003", some "y"⟩)],
      LastSeenFile.map []⟩).Perm
      (storedRecords ⟨[("b.json", MsgFile.record ⟨some "a", some "00000009", some "x"⟩),
        ("a.json", MsgFile.record ⟨some "b", some "00000003", some "y"⟩)],
      LastSeenFile.map []⟩) ∧
    List.Pairwise (fun m₁ m₂ => tsVal m₁ < tsVal m₂)
      (get_all_messages ⟨[("b.json", MsgFile.record ⟨some "a", some "00000009", some "x"⟩),
        ("a.json", MsgFile.record ⟨some "b", some "00000003", some "y"⟩)],
      LastSeenFile.map []⟩) ∧
    (∀ s₂ : Store, s₂.files.Perm
        (⟨[("b.json", MsgFile.record ⟨some "a", some "00000009", some "x"⟩),
          ("a.json", MsgFile.record ⟨some "b", some "00000003", some "y"⟩)],
        LastSeenFile.map []⟩ : Store).files →
      get_all_messages s₂ =
        get_all_messages ⟨[("b.json", MsgFile.record ⟨some "a", some "00000009", some "x"⟩),
          ("a.json", MsgFile.record ⟨some "b", some "00000003", some "y"⟩)],
        LastSeenFile.map []⟩) :=
  c5_fetch_all_sorted_ascending _ (by decide) (by decide)

/-- Claim C6 counterexample: a stored record whose timestamp text does
not parse.  The first `fetchUnread` (reader absent from the registry)
returns it; the cursor-advance step then records the unparsable text as
the cursor; the second `fetchUnread` treats that cursor as absent and
returns the whole history again, not the empty list, refuting the claim
as stated for arbitrary store states. -/
theorem c6_counterexample :
    get_unread_for ⟨[("g.json", MsgFile.record ⟨some "a", some "garbage", some "x"⟩)],
      LastSeenFile.map []⟩ "r" = .ok [⟨some "a", some "garbage", some "x"⟩] ∧
    ([(⟨some "a", some "garbage", some "x"⟩ : MsgRec)] ≠ []) ∧
    update_last_seen ⟨[("g.json", MsgFile.record ⟨some "a", some "garbage", some "x"⟩)],
      LastSeenFile.map []⟩ "r" [⟨some "a", some "garbage", some "x"⟩] =
      .ok ⟨[("g.json", MsgFile.record ⟨some "a", some "garbage", some "x"⟩)],
        LastSeenFile.map [("r", "garbage")]⟩ ∧
    get_unread_for ⟨[("g.json", MsgFile.record ⟨some "a", some "garbage", some "x"⟩)],
      LastSeenFile.map [("r", "garbage")]⟩ "r" ≠ .ok [] :=
  ⟨by decide, by decide, by decide, by decide⟩

/-- Claim C6 amended (proved): on stores whose stored records all carry
parsable timestamps, after a `fetchUnread` returns a non-empty list and
the cursor-advance step is applied to that list, an immediate second
`fetchUnread` with no intervening sends returns the empty list. -/
theorem c6_amended_monotonic_unread (s : Store) (r : String) (l : List MsgRec) (s' : Store)
    (hwf : WellFormedStore s)
    (h1 : get_unread_for s r = .ok l)
    (hne : l ≠ [])
    (h2 : update_last_seen s r l = .ok s') :
    get_unread_for s' r = .ok [] := by
  cases hla : l.getLast? with
  | none => exact absurd (List.getLast?_eq_none_iff.mp hla) hne
  | some la =>
    cases hts : la.timestamp with
    | none => simp [update_last_seen, hla, hts] at h2
    | some ts =>
      have hs' : s' = { s with lastSeen := .map (dictSet (load_last_seen s) r ts) } := by
        simp only [update_last_seen, hla, hts, Except.ok.injEq] at h2
        exact h2.symm
      have hla_mem : la ∈ l := mem_of_getLast?_eq hla
      have hla_all : la ∈ get_all_messages s := get_unread_subset hwf h1 la hla_mem
      have hwfla := wf_of_mem_get_all hwf hla_all
      obtain ⟨ts', v, hts', hpv, hvv⟩ := wfRec_spec hwfla
      have hts2 : ts' = ts := by
        rw [hts] at hts'
        exact (Option.some.inj hts').symm
      rw [hts2] at hpv
      have hcur : List.lookup r (load_last_seen s') = some ts := by
        rw [hs']
        exact lookup_dictSet_self _ _ _
      rw [get_unread_for_parsable hcur hpv]
      have hfeq : get_all_messages s' = get_all_messages s :=
        get_all_messages_files_eq (by rw [hs'])
      rw [hfeq, filterUnread_eq_ok (fun m hm => wf_of_mem_get_all hwf hm)]
      have hmax := get_unread_max hwf h1 hla
      have hnilf : (get_all_messages s).filter (fun m => decide (v < tsVal m)) = [] := by
        rw [List.filter_eq_nil_iff]
        intro a ha
        have hle := hmax a ha
        simp only [decide_eq_true_eq]
        omega
      rw [hnilf]

/-- Witness for the amended C6 on a two-message store with a first-time
reader: the first poll returns both messages, the advance records the
later timestamp, the second poll is empty. -/
theorem c6_amended_witness :
    get_unread_for ⟨[("a.json", MsgFile.record ⟨some "a", some "00000002", some "x"⟩),
        ("b.json", MsgFile.record ⟨some "b", some "00000007", some "y"⟩)],
      LastSeenFile.map [("r", "00000007")]⟩ "r" = .ok [] :=
  c6_amended_monotonic_unread
    ⟨[("a.json", MsgFile.record ⟨some "a", some "00000002", some "x"⟩),
      ("b.json", MsgFile.record ⟨some "b", some "00000007", some "y"⟩)],
    LastSeenFile.map []⟩ "r"
    [⟨some "a", some "00000002", some "x"⟩, ⟨some "b", some "00000007", some "y"⟩]
    ⟨[("a.json", MsgFile.record ⟨some "a", some "00000002", some "x"⟩),
      ("b.json", MsgFile.record ⟨some "b", some "00000007", some "y"⟩)],
    LastSeenFile.map [("r", "00000007")]⟩
    (by decide) (by decide) (by decide) (by decide)

/-- Claim C2 counterexample: a message file that parses as JSON but has
no `timestamp` field, together with a reader whose cursor is present and
parsable, makes `get_unread_for` raise a `KeyError` instead of returning
a list — refuting the claim that the read operations never raise and
silently exclude such files. -/
theorem c2_counterexample :
    get_unread_for ⟨[("f.json", MsgFile.record ⟨some "a", none, some "x"⟩)],
      LastSeenFile.map [("r", "00000003")]⟩ "r" = .error .keyError := by
  decide

/-- Claim C2 amended (proved): `get_all_messages` never raises: for every
store it returns the parsed records of the `.json` files (JSON-unparsable
files silently excluded) in timestamp-string order.  `get_unread_for`
returns a list without raising whenever every stored parsable record also
carries a parsable timestamp (and, by `c4_absent_or_unparsable_cursor_returns_all`,
always when the reader's cursor is absent or unparsable); a record lacking
a parsable timestamp is included by `get_all_messages` rather than
excluded and can make `get_unread_for` raise. -/
theorem c2_amended_corruption_tolerance (s : Store) (r : String) :
    (get_all_messages s).Perm (storedRecords s) ∧
    List.Pairwise keyLe (get_all_messages s) ∧
    (WellFormedStore s → ∃ l, get_unread_for s r = .ok l) := by
  refine ⟨get_all_messages_perm s, get_all_messages_sortedKey s, ?_⟩
  intro hwf
  cases hc : List.lookup r (load_last_seen s) with
  | none => exact ⟨_, get_unread_for_absent hc⟩
  | some ts =>
    cases hp : parse_iso ts with
    | none => exact ⟨_, get_unread_for_unparsable hc hp⟩
    | some t =>
      refine ⟨(get_all_messages s).filter (fun m => decide (t < tsVal m)), ?_⟩
      rw [get_unread_for_parsable hc hp]
      exact filterUnread_eq_ok (fun m hm => wf_of_mem_get_all hwf hm)

/-- Witness for the amended C2 on a store holding one good record and one
JSON-unparsable file. -/
theorem c2_amended_witness :
    (get_all_messages ⟨[("a.json", MsgFile.record ⟨some "a", some "00000003", some "x"⟩),
        ("junk.json", MsgFile.unparsable)], LastSeenFile.map [("r", "00000001")]⟩).Perm
      (storedRecords ⟨[("a.json", MsgFile.record ⟨some "a", some "00000003", some "x"⟩),
        ("junk.json", MsgFile.unparsable)], LastSeenFile.map [("r", "00000001")]⟩) ∧
    List.Pairwise keyLe
      (get_all_messages ⟨[("a.json", MsgFile.record ⟨some "a", some "00000003", some "x"⟩),
        ("junk.json", MsgFile.unparsable)], LastSeenFile.map [("r", "00000001")]⟩) ∧
    (∃ l, get_unread_for ⟨[("a.json", MsgFile.record ⟨some "a", some "00000003", some "x"⟩),
        ("junk.json", MsgFile.unparsable)], LastSeenFile.map [("r", "00000001")]⟩ "r" = .ok l) :=
  ⟨(c2_amended_corruption_tolerance ⟨[("a.json", MsgFile.record ⟨some "a", some "00000003", some "x"⟩),
      ("junk.json", MsgFile.unparsable)], LastSeenFile.map [("r", "00000001")]⟩ "r").1,
   (c2_amended_corruption_tolerance ⟨[("a.json", MsgFile.record ⟨some "a", some "00000003", some "x"⟩),
      ("junk.json", MsgFile.unparsable)], LastSeenFile.map [("r", "00000001")]⟩ "r").2.1,
   (c2_amended_corruption_tolerance ⟨[("a.json", MsgFile.record ⟨some "a", some "00000003", some "x"⟩),
      ("junk.json", MsgFile.unparsable)], LastSeenFile.map [("r", "00000001")]⟩ "r").2.2 (by decide)⟩

/-- Claim C9 counterexample: the author "bob\r" contains a carriage
return, so the claim as stated demands a validation error, but the code
strips surrounding whitespace (including the CR) from the author before
every check, and the send succeeds. -/
theorem c9_counterexample :
    isOk (send_message ⟨[], LastSeenFile.map []⟩ 0 "bob\r" "hi") = true := by
  decide

/-- Claim C9 amended (proved): send succeeds exactly when the author
after trimming surrounding whitespace is non-empty, at most 100
characters, and free of path-unsafe characters, and the content after
trimming is non-empty and at most 100000 characters; otherwise it raises
a validation error (the write happens only after validation, so on
failure no store access occurs by construction). -/
theorem c9_amended_validation_boundaries (s : Store) (now : Nat) (author content : String) :
    isOk (send_message s now author content) = true ↔
      (authorBad author = false ∧ contentBad content = false) := by
  rcases validate_author_spec author with ⟨hab, hva⟩ | ⟨hab, e, hva⟩
  · rcases validate_message_spec content with ⟨hcb, hvm⟩ | ⟨hcb, e, hvm⟩
    · simp [send_message, hva, hvm, isOk, hab, hcb]
    · simp [send_message, hva, hvm, isOk, hab, hcb]
  · simp [send_message, hva, isOk, hab]

/-- Claim C10 (confirmed): send trims surrounding whitespace from the
author before validation and storage: the stored record and returned
message carry the trimmed author, the trimmed author is embedded in the
filename, and the length and unsafe-character checks hold of the trimmed
author. -/
theorem c10_author_trimmed (s : Store) (now : Nat) (author content : String)
    (s' : Store) (m : MsgRec)
    (h : send_message s now author content = .ok (s', m)) :
    m.author = some (pyStrip author) ∧
    s'.files = setFile s.files (replaceColons (isoOfNat now) ++ "_" ++ pyStrip author ++ ".json") (.record m) ∧
    s'.lastSeen = s.lastSeen ∧
    pyStrip author ≠ "" ∧
    (pyStrip author).length ≤ 100 ∧
    (pyStrip author).data.any (fun c => invalidChars.contains c) = false := by
  obtain ⟨hm, hs, hab, hcb⟩ := send_message_ok_spec h
  have habs : ¬ pyStrip author = "" ∧ ¬ (pyStrip author).length > 100 ∧
      (pyStrip author).data.any (fun c => invalidChars.contains c) = false := by
    unfold authorBad at hab
    simp only [Bool.or_eq_false_iff, decide_eq_false_iff_not] at hab
    exact ⟨hab.1.1, hab.1.2, hab.2⟩
  refine ⟨by rw [hm], ?_, by rw [hs], habs.1, ?_, habs.2.2⟩
  · rw [hs]
  · have hlen := habs.2.1
    omega

/-- Witness for C10: an author with surrounding whitespace is stored and
embedded in the filename in trimmed form. -/
theorem c10_witness :
    (⟨some "alice", some "00000005", some "hi"⟩ : MsgRec).author = some (pyStrip " alice\n") ∧
    (⟨[("00000005_alice.json", MsgFile.record ⟨some "alice", some "00000005", some "hi"⟩)],
        LastSeenFile.map []⟩ : Store).files =
      setFile ([] : List (String × MsgFile)) (replaceColons (isoOfNat 5) ++ "_" ++ pyStrip " alice\n" ++ ".json")
        (.record ⟨some "alice", some "00000005", some "hi"⟩) ∧
    (⟨[("00000005_alice.json", MsgFile.record ⟨some "alice", some "00000005", some "hi"⟩)],
        LastSeenFile.map []⟩ : Store).lastSeen = (⟨[], LastSeenFile.map []⟩ : Store).lastSeen ∧
    pyStrip " alice\n" ≠ "" ∧
    (pyStrip " alice\n").length ≤ 100 ∧
    (pyStrip " alice\n").data.any (fun c => invalidChars.contains c) = false :=
  c10_author_trimmed ⟨[], LastSeenFile.map []⟩ 5 " alice\n" "hi" _ _ (by decide)
